import Mathlib

/-!
Verification of the RPC dispatch loop of `ykman/rpc/__init__.py`.

The core consists of two cooperating execution units:

* the Stream Reader (`_handle_incoming`): reads inbound frames, handles
  `signal` frames immediately, forwards `command` frames through a
  single-slot handoff queue (`Queue(1)`), and on end of stream sets the
  cancellation event and enqueues a `None` sentinel;
* the Command Dispatcher (the loop body of `process`): blocks dequeuing
  from the handoff queue, invokes the external handler, converts handler
  outcomes into outbound frames, and acknowledges the drain
  (`task_done`) regardless of outcome.

We embed this as a small-step transition system: one shared state with a
program counter for each of the two threads, the shared event flag, the
queue slot together with its `unfinished_tasks` counter, the remaining
inbound stream, and the outbound trace.  Ghost fields (`seen`, `enq`,
`disp`, `fin` and the origin tags on `out`) record history so that trace
properties can be stated as state invariants; they do not influence any
transition.
-/

set_option autoImplicit false

namespace YkmanRpc

/-- JSON-like values, the payloads travelling over the wire. -/
inductive Value where
  | null : Value
  | bool : Bool → Value
  | num : Int → Value
  | str : String → Value
  | arr : List Value → Value
  | obj : List (String × Value) → Value

/-- An inbound request frame: a JSON object, i.e. a finite map given as a
list of key/value pairs (later duplicates win, as for a Python `dict`
built by `json.loads`). -/
abbrev Req : Type := List (String × Value)

/-- Field access on a request object; later occurrences of a key shadow
earlier ones, matching Python `dict` construction from JSON. -/
def lookupReq (req : Req) (k : String) : Option Value :=
  req.foldl (fun acc p => if p.1 = k then some p.2 else acc) none

/-- `request.get(k, d)`: field access with a default. -/
def lookupD (req : Req) (k : String) (d : Value) : Value :=
  (lookupReq req k).getD d

/-- The single-quote character, used to render Python `KeyError` text. -/
def sq : String := String.mk [Char.ofNat 39]

/-- `str(KeyError(k))` in Python: the missing key in single quotes. -/
def keyErrStr (k : String) : String := sq ++ k ++ sq

/-- `repr(KeyError(k))` in Python, as produced by `f"{e!r}"`. -/
def keyErrRepr (k : String) : String := "KeyError(" ++ sq ++ k ++ sq ++ ")"

/-- Outbound frame built by the local `error` helper of `process`:
`dict(kind="error", status=status, message=message, body=body)`. -/
def errFrame (st m : String) (b : Value) : Value :=
  .obj [("kind", .str "error"), ("status", .str st), ("message", .str m), ("body", b)]

/-- Outbound frame built by the local `signal` helper of `process`. -/
def signalFrame (st : String) (b : Value) : Value :=
  .obj [("kind", .str "signal"), ("status", .str st), ("body", b)]

/-- Outbound frame built by the local `success` helper of `process`. -/
def successFrame (b : Value) : Value :=
  .obj [("kind", .str "success"), ("body", b)]

/-- Outcome of one handler invocation: a returned value, a raised
`RpcException` carrying `(status, message, body)`, or any other raised
exception rendered as the string `f"{e!r}"`. -/
inductive Outcome where
  | ok : Value → Outcome
  | rpcErr : String → String → Value → Outcome
  | exn : String → Outcome

/-- The external command handler (out of scope of the core; abstract).
`sigs` gives the sequence of progress signals the handler emits through
its `signal` callback during the invocation — each as a status together
with an optional body, `none` standing for the callback's defaulted
empty body — and `outcome` gives how the invocation ends.  Both are
functions of the three data arguments `(action, target, body)` the
dispatcher passes. -/
structure Handler where
  sigs : Value → Value → Value → List (String × Option Value)
  outcome : Value → Value → Value → Outcome

/-- Classification of one received frame by the Stream Reader loop body:
the falsiness test `if not request`, then `request["kind"]`, then the
`signal` / `command` / unsupported-kind branches, with `KeyError` for a
missing field. -/
inductive Cls where
  | falsy
  | missingKind
  | missingStatus
  | cancel
  | otherSignal
  | command
  | badKind

/-- The branch `_handle_incoming` takes for a received frame. -/
def classify (req : Req) : Cls :=
  match req with
  | [] => .falsy
  | _ :: _ =>
    match lookupReq req "kind" with
    | none => .missingKind
    | some (.str k) =>
      if k = "signal" then
        match lookupReq req "status" with
        | none => .missingStatus
        | some (.str t) => if t = "cancel" then .cancel else .otherSignal
        | some _ => .otherSignal
      else if k = "command" then .command
      else .badKind
    | some _ => .badKind

/-- `true` exactly when the reader will treat the frame as a command. -/
def isCmdB (req : Req) : Bool :=
  match classify req with
  | .command => true
  | _ => false

/-- The command frames of an inbound prefix, in receipt order. -/
def cmdsOf (l : List Req) : List Req := l.filter isCmdB

/-- Which code emitted an outbound frame (ghost tag, for trace
bookkeeping only): the reader's `error(...)` calls, the dispatcher's
per-command response (`success(...)` or `error(...)`), or the `signal`
progress callback invoked from within the handler. -/
inductive Origin where
  | readerErr
  | progress
  | cmdResp

/-- Program counter of the Stream Reader thread. -/
inductive RState where
  | idle                 -- at the top of the loop, about to `recv()`
  | waitJoin : Req → RState  -- command branch, blocked in `cmd_queue.join()`
  | putCmd : Req → RState    -- after `event.clear()`, about to `cmd_queue.put(request)`
  | eof1                 -- left the loop, about to `event.set()`
  | eof2                 -- about to `cmd_queue.put(None)`
  | rdone                -- thread function returned

/-- Program counter of the Command Dispatcher (main) loop. -/
inductive DState where
  | get                  -- blocked in `cmd_queue.get()`
  | run : Req → List (String × Option Value) → Outcome → DState
      -- handler invocation in progress: pending progress signals, outcome
  | ack                  -- about to `cmd_queue.task_done()`
  | joinR                -- left the loop, about to `read_thread.join()`
  | done                 -- `process` returned

/-- The whole shared state of one `process` invocation.  `slot` is the
content of the capacity-1 handoff queue (`none` inside an entry is the
`None` termination sentinel); `unfinished` is the queue's
`unfinished_tasks` counter (incremented by `put`, decremented by
`task_done`, awaited by `join`).  `out` is the outbound trace in emission
order.  `seen`, `enq`, `disp`, `fin` are ghost histories: frames consumed
from the stream, commands enqueued, commands dequeued for dispatch, and
commands whose response frame has been sent. -/
structure Sys where
  r : RState
  d : DState
  event : Bool
  slot : List (Option Req)
  unfinished : Nat
  inbound : List Req
  out : List (Origin × Value)
  seen : List Req
  enq : List Req
  disp : List Req
  fin : List Req

/-- Effect of the reader's loop body on one received frame `req` (with
`rest` the remaining stream): the `if not request: break` test followed
by the `try` block of `_handle_incoming`. -/
def recvNext (s : Sys) (req : Req) (rest : List Req) : Sys :=
  match classify req with
  | .falsy => { s with r := .eof1, inbound := rest, seen := s.seen ++ [req] }
  | .missingKind =>
    { s with inbound := rest, seen := s.seen ++ [req],
             out := s.out ++ [(.readerErr, errFrame "invalid-command" (keyErrStr "kind") (.obj []))] }
  | .missingStatus =>
    { s with inbound := rest, seen := s.seen ++ [req],
             out := s.out ++ [(.readerErr, errFrame "invalid-command" (keyErrStr "status") (.obj []))] }
  | .cancel => { s with event := true, inbound := rest, seen := s.seen ++ [req] }
  | .otherSignal => { s with inbound := rest, seen := s.seen ++ [req] }
  | .command => { s with r := .waitJoin req, inbound := rest, seen := s.seen ++ [req] }
  | .badKind =>
    { s with inbound := rest, seen := s.seen ++ [req],
             out := s.out ++ [(.readerErr, errFrame "invalid-command" "Unsupported request type" (.obj []))] }

/-- What invoking the dispatcher's `try` block on a dequeued command
produces: `request["action"]` is evaluated first, so a command without
`action` raises `KeyError` before the handler is called and falls into
the generic `except Exception` arm; otherwise the handler runs with
`target` defaulted to `[]` and `body` defaulted to an empty object, and
yields its progress signals and its outcome. -/
def dispatchRun (H : Handler) (req : Req) : List (String × Option Value) × Outcome :=
  match lookupReq req "action" with
  | none => ([], .exn (keyErrRepr "action"))
  | some a =>
    (H.sigs a (lookupD req "target" (.arr [])) (lookupD req "body" (.obj [])),
     H.outcome a (lookupD req "target" (.arr [])) (lookupD req "body" (.obj [])))

/-- The outbound response frame for a handler outcome: the `success`
call, the `except RpcException` arm, and the `except Exception` arm of
the dispatcher loop. -/
def frameFor : Outcome → Value
  | .ok v => successFrame v
  | .rpcErr st m b => errFrame st m b
  | .exn m => errFrame "exception" m (.obj [])

/-- The (unique) response frame a command will receive, as determined by
the handler. -/
def respFrameOf (H : Handler) (req : Req) : Value :=
  frameFor (dispatchRun H req).2

/-- State after the dispatcher sends the response frame for outcome `o`
of command `req` and moves on to `task_done`. -/
def respondSucc (s : Sys) (req : Req) (o : Outcome) : Sys :=
  { s with d := .ack, out := s.out ++ [(.cmdResp, frameFor o)], fin := s.fin ++ [req] }

/-- State after the dispatcher's `task_done` acknowledgment. -/
def ackSucc (s : Sys) : Sys :=
  { s with d := .get, unfinished := s.unfinished - 1 }

/-- State after the dispatcher dequeues command `req` and enters the
handler invocation. -/
def getSucc (H : Handler) (s : Sys) (req : Req) : Sys :=
  { s with d := .run req (dispatchRun H req).1 (dispatchRun H req).2,
           slot := [], disp := s.disp ++ [req] }

/-- State after the handler's `signal` callback emits one progress
frame. -/
def sigSucc (s : Sys) (req : Req) (st : String) (b : Option Value)
    (rest : List (String × Option Value)) (o : Outcome) : Sys :=
  { s with d := .run req rest o,
           out := s.out ++ [(.progress, signalFrame st (b.getD (.obj [])))] }

/-- State after the reader consumes a malformed frame and emits the
`invalid-command` error frame with message `msg`. -/
def errEmit (s : Sys) (req : Req) (rest : List Req) (msg : String) : Sys :=
  { s with inbound := rest, seen := s.seen ++ [req],
           out := s.out ++ [(.readerErr, errFrame "invalid-command" msg (.obj []))] }

/-- Interleaved small-step semantics of the two threads.  Each
constructor is one atomic action of the Python source: one shared-state
access (queue operation, event operation, or `send`) together with the
thread-local control flow around it. -/
inductive Step (H : Handler) : Sys → Sys → Prop where
  | recv (s : Sys) (req : Req) (rest : List Req) :
      s.r = .idle → s.inbound = req :: rest → Step H s (recvNext s req rest)
  | eofBreak (s : Sys) :
      s.r = .idle → s.inbound = [] → Step H s { s with r := .eof1 }
  | eofSet (s : Sys) :
      s.r = .eof1 → Step H s { s with r := .eof2, event := true }
  | eofPut (s : Sys) :
      s.r = .eof2 → s.slot = [] →
      Step H s { s with r := .rdone, slot := [none], unfinished := s.unfinished + 1 }
  | joinOk (s : Sys) (req : Req) :
      s.r = .waitJoin req → s.unfinished = 0 →
      Step H s { s with r := .putCmd req, event := false }
  | put (s : Sys) (req : Req) :
      s.r = .putCmd req → s.slot = [] →
      Step H s { s with r := .idle, slot := [some req],
                        unfinished := s.unfinished + 1, enq := s.enq ++ [req] }
  | getCmd (s : Sys) (req : Req) :
      s.d = .get → s.slot = [some req] →
      Step H s { s with d := .run req (dispatchRun H req).1 (dispatchRun H req).2,
                        slot := [], disp := s.disp ++ [req] }
  | getSentinel (s : Sys) :
      s.d = .get → s.slot = [none] → Step H s { s with d := .joinR, slot := [] }
  | sigEmit (s : Sys) (req : Req) (st : String) (b : Option Value)
      (rest : List (String × Option Value)) (o : Outcome) :
      s.d = .run req ((st, b) :: rest) o →
      Step H s { s with d := .run req rest o,
                        out := s.out ++ [(.progress, signalFrame st (b.getD (.obj [])))] }
  | respond (s : Sys) (req : Req) (o : Outcome) :
      s.d = .run req [] o →
      Step H s { s with d := .ack, out := s.out ++ [(.cmdResp, frameFor o)],
                        fin := s.fin ++ [req] }
  | ack (s : Sys) :
      s.d = .ack → Step H s { s with d := .get, unfinished := s.unfinished - 1 }
  | joinReader (s : Sys) :
      s.d = .joinR → s.r = .rdone → Step H s { s with d := .done }

/-- The state in which `process` starts: event unset, queue empty, both
threads at the top of their loops. -/
def init (inbound0 : List Req) : Sys :=
  { r := .idle, d := .get, event := false, slot := [], unfinished := 0,
    inbound := inbound0, out := [], seen := [], enq := [], disp := [], fin := [] }

/-- States reachable by some interleaving of the two threads from the
start of `process` on inbound stream `inbound0`. -/
def Reachable (H : Handler) (inbound0 : List Req) (s : Sys) : Prop :=
  Relation.ReflTransGen (Step H) (init inbound0) s

/-- One reader step as a function, when the reader is enabled: used by
the deterministic demo scheduler below to build concrete reachable
states. -/
def readerNext (s : Sys) : Option Sys :=
  match s.r with
  | .idle =>
    match s.inbound with
    | [] => some { s with r := .eof1 }
    | req :: rest => some (recvNext s req rest)
  | .waitJoin req =>
    if s.unfinished = 0 then some { s with r := .putCmd req, event := false } else none
  | .putCmd req =>
    match s.slot with
    | [] => some { s with r := .idle, slot := [some req],
                          unfinished := s.unfinished + 1, enq := s.enq ++ [req] }
    | _ :: _ => none
  | .eof1 => some { s with r := .eof2, event := true }
  | .eof2 =>
    match s.slot with
    | [] => some { s with r := .rdone, slot := [none], unfinished := s.unfinished + 1 }
    | _ :: _ => none
  | .rdone => none

/-- One dispatcher step as a function, when the dispatcher is enabled. -/
def dispNext (H : Handler) (s : Sys) : Option Sys :=
  match s.d with
  | .get =>
    match s.slot with
    | [some req] =>
      some { s with d := .run req (dispatchRun H req).1 (dispatchRun H req).2,
                    slot := [], disp := s.disp ++ [req] }
    | [none] => some { s with d := .joinR, slot := [] }
    | _ => none
  | .run req sigs o =>
    match sigs with
    | (st, b) :: rest =>
      some { s with d := .run req rest o,
                    out := s.out ++ [(.progress, signalFrame st (b.getD (.obj [])))] }
    | [] => some { s with d := .ack, out := s.out ++ [(.cmdResp, frameFor o)],
                          fin := s.fin ++ [req] }
  | .ack => some { s with d := .get, unfinished := s.unfinished - 1 }
  | .joinR =>
    match s.r with
    | .rdone => some { s with d := .done }
    | _ => none
  | .done => none

/-- Reader-priority scheduler: take a reader step when one is enabled,
otherwise a dispatcher step.  Just one legal interleaving, used to
exhibit concrete runs. -/
def pick (H : Handler) (s : Sys) : Option Sys :=
  match readerNext s with
  | some s₂ => some s₂
  | none => dispNext H s

/-- Run the demo scheduler for `n` rounds (stopping early when both
threads are blocked or finished). -/
def execN (H : Handler) (s : Sys) : Nat → Sys
  | 0 => s
  | n + 1 =>
    match pick H s with
    | some s₂ => execN H s₂ n
    | none => s

theorem readerNext_step (H : Handler) (s s₂ : Sys) (h : readerNext s = some s₂) :
    Step H s s₂ := by
  cases hr : s.r with
  | idle =>
    cases hi : s.inbound with
    | nil =>
      simp only [readerNext, hr, hi] at h
      cases h
      rw [← hi]
      exact Step.eofBreak s hr hi
    | cons req rest =>
      simp only [readerNext, hr, hi] at h
      cases h
      exact Step.recv s req rest hr hi
  | waitJoin req =>
    simp only [readerNext, hr] at h
    split at h
    · rename_i hu
      cases h
      exact Step.joinOk s req hr hu
    · exact Option.noConfusion h
  | putCmd req =>
    cases hs : s.slot with
    | nil =>
      simp only [readerNext, hr, hs] at h
      cases h
      exact Step.put s req hr hs
    | cons x t => simp [readerNext, hr, hs] at h
  | eof1 =>
    simp only [readerNext, hr] at h
    cases h
    exact Step.eofSet s hr
  | eof2 =>
    cases hs : s.slot with
    | nil =>
      simp only [readerNext, hr, hs] at h
      cases h
      exact Step.eofPut s hr hs
    | cons x t => simp [readerNext, hr, hs] at h
  | rdone => simp [readerNext, hr] at h

theorem dispNext_step (H : Handler) (s s₂ : Sys) (h : dispNext H s = some s₂) :
    Step H s s₂ := by
  cases hd : s.d with
  | get =>
    cases hs : s.slot with
    | nil => simp [dispNext, hd, hs] at h
    | cons x t =>
      cases t with
      | cons _ _ => cases x <;> simp [dispNext, hd, hs] at h
      | nil =>
        cases x with
        | none =>
          simp only [dispNext, hd, hs] at h
          cases h
          exact Step.getSentinel s hd hs
        | some req =>
          simp only [dispNext, hd, hs] at h
          cases h
          exact Step.getCmd s req hd hs
  | run req sigs o =>
    cases sigs with
    | nil =>
      simp only [dispNext, hd] at h
      cases h
      exact Step.respond s req o hd
    | cons p rest =>
      obtain ⟨st, b⟩ := p
      simp only [dispNext, hd] at h
      cases h
      exact Step.sigEmit s req st b rest o hd
  | ack =>
    simp only [dispNext, hd] at h
    cases h
    exact Step.ack s hd
  | joinR =>
    cases hr : s.r
    case rdone =>
      simp only [dispNext, hd, hr] at h
      cases h
      rw [← hr]
      exact Step.joinReader s hd hr
    all_goals simp [dispNext, hd, hr] at h
  | done => simp [dispNext, hd] at h

theorem pick_step (H : Handler) (s s₂ : Sys) (h : pick H s = some s₂) : Step H s s₂ := by
  unfold pick at h
  cases hr : readerNext s with
  | some s₃ => rw [hr] at h; exact (Option.some.inj h) ▸ readerNext_step H s s₃ hr
  | none => rw [hr] at h; exact dispNext_step H s s₂ h

theorem execN_reach (H : Handler) (s : Sys) (n : Nat) :
    Relation.ReflTransGen (Step H) s (execN H s n) := by
  induction n generalizing s with
  | zero => exact Relation.ReflTransGen.refl
  | succ n ih =>
    cases hp : pick H s with
    | none =>
      simp only [execN, hp]
      exact Relation.ReflTransGen.refl
    | some s₂ =>
      simp only [execN, hp]
      exact Relation.ReflTransGen.head (pick_step H s s₂ hp) (ih s₂)

theorem execN_reachable (H : Handler) (inbound0 : List Req) (n : Nat) :
    Reachable H inbound0 (execN H (init inbound0) n) :=
  execN_reach H (init inbound0) n

/-- The command frames currently sitting in the handoff queue. -/
def slotCmds (s : Sys) : List Req := s.slot.filterMap id

/-- The command frame the reader has received but not yet enqueued
(it is between `cmd_queue.join()` and `cmd_queue.put(request)`). -/
def rpend (s : Sys) : List Req :=
  match s.r with
  | .waitJoin req => [req]
  | .putCmd req => [req]
  | _ => []

/-- The command frame currently being handled by the dispatcher, if any. -/
def dpend (s : Sys) : List Req :=
  match s.d with
  | .run req _ _ => [req]
  | _ => []

/-- 1 when the dispatcher holds a dequeued command whose `task_done` has
not been called yet. -/
def dHold (s : Sys) : Nat :=
  match s.d with
  | .run _ _ _ => 1
  | .ack => 1
  | _ => 0

/-- 1 when the dispatcher has dequeued the sentinel (which never gets a
`task_done`). -/
def dSent (s : Sys) : Nat :=
  match s.d with
  | .joinR => 1
  | .done => 1
  | _ => 0

/-- Whether an outbound trace entry is a per-command response frame. -/
def isResp (p : Origin × Value) : Bool :=
  match p.1 with
  | .cmdResp => true
  | _ => false

/-- The per-command response frames of the outbound trace, in order. -/
def respTrace (out : List (Origin × Value)) : List Value :=
  (out.filter isResp).map Prod.snd

theorem isCmdB_eq_true (req : Req) (h : classify req = .command) : isCmdB req = true := by
  simp [isCmdB, h]

theorem isCmdB_eq_false (req : Req) (h : classify req ≠ .command) : isCmdB req = false := by
  unfold isCmdB
  cases hc : classify req <;> simp_all

theorem cmdsOf_append (l : List Req) (req : Req) :
    cmdsOf (l ++ [req]) = cmdsOf l ++ (if isCmdB req then [req] else []) := by
  simp [cmdsOf, List.filter_append]
  cases h : isCmdB req <;> simp [List.filter, h]

theorem respTrace_append (out : List (Origin × Value)) (p : Origin × Value) :
    respTrace (out ++ [p]) = respTrace out ++ (if isResp p then [p.2] else []) := by
  simp [respTrace, List.filter_append]
  cases h : isResp p <;> simp [List.filter, h]

/-- The inductive invariant of the dispatch loop, closed under `Step`.
It packages: the link of the consumed prefix to the initial stream, the
capacity bound of the handoff queue, the exact accounting of
`unfinished_tasks`, the reader-side facts holding between
`cmd_queue.join()` and `cmd_queue.put(request)`, the pipeline equations
(received commands = enqueued ++ in transit; enqueued = dispatched ++
queued; dispatched = responded ++ running), the correspondence of the
dispatcher control state to the handler, the response-trace equation,
and the shutdown facts about the sentinel. -/
structure Inv (H : Handler) (inbound0 : List Req) (s : Sys) : Prop where
  seenLink : inbound0 = s.seen ++ s.inbound
  slotLen : s.slot.length ≤ 1
  unfEq : s.unfinished = s.slot.length + dHold s + dSent s
  putEvent : ∀ req, s.r = .putCmd req → s.event = false
  putUnf : ∀ req, s.r = .putCmd req → s.unfinished = 0
  rpendCmd : ∀ req, s.r = .waitJoin req ∨ s.r = .putCmd req → classify req = .command
  enqEq : s.enq ++ rpend s = cmdsOf s.seen
  dispEq : s.enq = s.disp ++ slotCmds s
  finEq : s.disp = s.fin ++ dpend s
  runDisp : ∀ req sigs o, s.d = .run req sigs o →
    o = (dispatchRun H req).2 ∧ ∃ pre, (dispatchRun H req).1 = pre ++ sigs
  respEq : respTrace s.out = s.fin.map (respFrameOf H)
  eofEvent : s.r = .eof2 ∨ s.r = .rdone → s.event = true
  sentinelR : none ∈ s.slot → s.r = .rdone
  rdoneSent : s.r = .rdone → none ∈ s.slot ∨ s.d = .joinR ∨ s.d = .done
  doneR : s.d = .done → s.r = .rdone

theorem inv_init (H : Handler) (inbound0 : List Req) : Inv H inbound0 (init inbound0) := by
  refine ⟨?_, ?_, ?_, ?_, ?_, ?_, ?_, ?_, ?_, ?_, ?_, ?_, ?_, ?_, ?_⟩ <;>
    simp [init, rpend, dpend, dHold, dSent, slotCmds, cmdsOf, respTrace]

theorem inv_eofBreak (H : Handler) (i0 : List Req) (s : Sys) (hin : Inv H i0 s)
    (hr : s.r = .idle) (_hi : s.inbound = []) : Inv H i0 { s with r := .eof1 } := by
  obtain ⟨h1, h2, h3, h4, h5, h6, h7, h8, h9, h10, h11, h12, h13, h14, h15⟩ := hin
  refine ⟨h1, h2, h3, ?_, ?_, ?_, ?_, h8, h9, h10, h11, ?_, ?_, ?_, ?_⟩
  · intro req hq; exact RState.noConfusion hq
  · intro req hq; exact RState.noConfusion hq
  · intro req hq; rcases hq with hq | hq <;> exact RState.noConfusion hq
  · have hp : rpend s = [] := by simp [rpend, hr]
    rw [hp] at h7
    simpa [rpend] using h7
  · intro hq; rcases hq with hq | hq <;> exact RState.noConfusion hq
  · intro hmem
    have := h13 hmem
    rw [hr] at this
    exact RState.noConfusion this
  · intro hq; exact RState.noConfusion hq
  · intro hq
    have := h15 hq
    rw [hr] at this
    exact RState.noConfusion this

theorem inv_eofSet (H : Handler) (i0 : List Req) (s : Sys) (hin : Inv H i0 s)
    (hr : s.r = .eof1) : Inv H i0 { s with r := .eof2, event := true } := by
  obtain ⟨h1, h2, h3, h4, h5, h6, h7, h8, h9, h10, h11, h12, h13, h14, h15⟩ := hin
  refine ⟨h1, h2, h3, ?_, ?_, ?_, ?_, h8, h9, h10, h11, ?_, ?_, ?_, ?_⟩
  · intro req hq; exact RState.noConfusion hq
  · intro req hq; exact RState.noConfusion hq
  · intro req hq; rcases hq with hq | hq <;> exact RState.noConfusion hq
  · have hp : rpend s = [] := by simp [rpend, hr]
    rw [hp] at h7
    simpa [rpend] using h7
  · intro _; rfl
  · intro hmem
    have := h13 hmem
    rw [hr] at this
    exact RState.noConfusion this
  · intro hq; exact RState.noConfusion hq
  · intro hq
    have := h15 hq
    rw [hr] at this
    exact RState.noConfusion this

theorem inv_joinOk (H : Handler) (i0 : List Req) (s : Sys) (req : Req) (hin : Inv H i0 s)
    (hr : s.r = .waitJoin req) (hu : s.unfinished = 0) :
    Inv H i0 { s with r := .putCmd req, event := false } := by
  obtain ⟨h1, h2, h3, h4, h5, h6, h7, h8, h9, h10, h11, h12, h13, h14, h15⟩ := hin
  refine ⟨h1, h2, h3, ?_, ?_, ?_, ?_, h8, h9, h10, h11, ?_, ?_, ?_, ?_⟩
  · intro req2 hq; rfl
  · intro req2 hq; exact hu
  · intro req2 hq
    rcases hq with hq | hq
    · exact RState.noConfusion hq
    · injection hq with he
      exact he ▸ h6 req (Or.inl hr)
  · have hp : rpend s = [req] := by simp [rpend, hr]
    rw [hp] at h7
    simpa [rpend] using h7
  · intro hq; rcases hq with hq | hq <;> exact RState.noConfusion hq
  · intro hmem
    have := h13 hmem
    rw [hr] at this
    exact RState.noConfusion this
  · intro hq; exact RState.noConfusion hq
  · intro hq
    have := h15 hq
    rw [hr] at this
    exact RState.noConfusion this

theorem inv_ack (H : Handler) (i0 : List Req) (s : Sys) (hin : Inv H i0 s)
    (hd : s.d = .ack) : Inv H i0 { s with d := .get, unfinished := s.unfinished - 1 } := by
  obtain ⟨h1, h2, h3, h4, h5, h6, h7, h8, h9, h10, h11, h12, h13, h14, h15⟩ := hin
  have h3a : s.unfinished = s.slot.length + 1 := by
    simpa [dHold, dSent, hd] using h3
  refine ⟨h1, h2, ?_, h4, ?_, h6, h7, h8, ?_, ?_, h11, h12, h13, ?_, ?_⟩
  · simp [dHold, dSent]
    omega
  · intro req hq
    have := h5 req hq
    omega
  · have hp : dpend s = [] := by simp [dpend, hd]
    rw [hp] at h9
    simpa [dpend] using h9
  · intro req sigs o hq; exact DState.noConfusion hq
  · intro hq
    rcases h14 hq with hm | h2 | h2
    · exact Or.inl hm
    · rw [hd] at h2; exact DState.noConfusion h2
    · rw [hd] at h2; exact DState.noConfusion h2
  · intro hq; exact DState.noConfusion hq

theorem inv_joinReader (H : Handler) (i0 : List Req) (s : Sys) (hin : Inv H i0 s)
    (hd : s.d = .joinR) (hr : s.r = .rdone) : Inv H i0 { s with d := .done } := by
  obtain ⟨h1, h2, h3, h4, h5, h6, h7, h8, h9, h10, h11, h12, h13, h14, h15⟩ := hin
  have h3a : s.unfinished = s.slot.length + 1 := by
    simpa [dHold, dSent, hd] using h3
  refine ⟨h1, h2, ?_, h4, h5, h6, h7, h8, ?_, ?_, h11, h12, h13, ?_, ?_⟩
  · simp [dHold, dSent]
    omega
  · have hp : dpend s = [] := by simp [dpend, hd]
    rw [hp] at h9
    simpa [dpend] using h9
  · intro req sigs o hq; exact DState.noConfusion hq
  · intro _; exact Or.inr (Or.inr rfl)
  · intro _; exact hr

theorem inv_eofPut (H : Handler) (i0 : List Req) (s : Sys) (hin : Inv H i0 s)
    (hr : s.r = .eof2) (hs : s.slot = []) :
    Inv H i0 { s with r := .rdone, slot := [none], unfinished := s.unfinished + 1 } := by
  obtain ⟨h1, h2, h3, h4, h5, h6, h7, h8, h9, h10, h11, h12, h13, h14, h15⟩ := hin
  have h3a : s.unfinished = dHold s + dSent s := by simpa [hs] using h3
  refine ⟨h1, ?_, ?_, ?_, ?_, ?_, ?_, ?_, h9, h10, h11, ?_, ?_, ?_, ?_⟩
  · simp
  · show s.unfinished + 1 = 1 + dHold s + dSent s
    omega
  · intro req hq; exact RState.noConfusion hq
  · intro req hq; exact RState.noConfusion hq
  · intro req hq; rcases hq with hq | hq <;> exact RState.noConfusion hq
  · have hp : rpend s = [] := by simp [rpend, hr]
    rw [hp] at h7
    simpa [rpend] using h7
  · have hc : slotCmds s = [] := by simp [slotCmds, hs]
    rw [hc] at h8
    simpa [slotCmds] using h8
  · intro _; exact h12 (Or.inl hr)
  · intro _; rfl
  · intro _
    exact Or.inl (by simp)
  · intro _; rfl

theorem inv_put (H : Handler) (i0 : List Req) (s : Sys) (req : Req) (hin : Inv H i0 s)
    (hr : s.r = .putCmd req) (hs : s.slot = []) :
    Inv H i0 { s with r := .idle, slot := [some req],
                      unfinished := s.unfinished + 1, enq := s.enq ++ [req] } := by
  obtain ⟨h1, h2, h3, h4, h5, h6, h7, h8, h9, h10, h11, h12, h13, h14, h15⟩ := hin
  have h3a : s.unfinished = dHold s + dSent s := by simpa [hs] using h3
  refine ⟨h1, ?_, ?_, ?_, ?_, ?_, ?_, ?_, h9, h10, h11, ?_, ?_, ?_, ?_⟩
  · simp
  · show s.unfinished + 1 = 1 + dHold s + dSent s
    omega
  · intro req2 hq; exact RState.noConfusion hq
  · intro req2 hq; exact RState.noConfusion hq
  · intro req2 hq; rcases hq with hq | hq <;> exact RState.noConfusion hq
  · have hp : rpend s = [req] := by simp [rpend, hr]
    rw [hp] at h7
    simpa [rpend] using h7
  · have hc : slotCmds s = [] := by simp [slotCmds, hs]
    rw [hc] at h8
    simp only [List.append_nil] at h8
    simp [slotCmds, h8]
  · intro hq; rcases hq with hq | hq <;> exact RState.noConfusion hq
  · intro hmem; simp at hmem
  · intro hq; exact RState.noConfusion hq
  · intro hq
    have := h15 hq
    rw [hr] at this
    exact RState.noConfusion this

theorem inv_getCmd (H : Handler) (i0 : List Req) (s : Sys) (req : Req) (hin : Inv H i0 s)
    (hd : s.d = .get) (hs : s.slot = [some req]) :
    Inv H i0 { s with d := .run req (dispatchRun H req).1 (dispatchRun H req).2,
                      slot := [], disp := s.disp ++ [req] } := by
  obtain ⟨h1, h2, h3, h4, h5, h6, h7, h8, h9, h10, h11, h12, h13, h14, h15⟩ := hin
  have h3a : s.unfinished = 1 := by simpa [dHold, dSent, hd, hs] using h3
  refine ⟨h1, ?_, ?_, h4, ?_, h6, h7, ?_, ?_, ?_, h11, h12, ?_, ?_, ?_⟩
  · simp
  · simp [dHold, dSent]
    omega
  · intro req2 hq
    have := h5 req2 hq
    omega
  · have hc : slotCmds s = [req] := by simp [slotCmds, hs]
    rw [hc] at h8
    show s.enq = (s.disp ++ [req]) ++ slotCmds { s with
      d := DState.run req (dispatchRun H req).1 (dispatchRun H req).2,
      slot := [], disp := s.disp ++ [req] }
    simp [slotCmds, h8]
  · have hp : dpend s = [] := by simp [dpend, hd]
    rw [hp] at h9
    simp only [List.append_nil] at h9
    show s.disp ++ [req] = s.fin ++ dpend { s with
      d := DState.run req (dispatchRun H req).1 (dispatchRun H req).2,
      slot := [], disp := s.disp ++ [req] }
    simp [dpend, h9]
  · intro req2 sigs o hq
    injection hq with e1 e2 e3
    subst e1; subst e2; subst e3
    exact ⟨rfl, [], by simp⟩
  · intro hmem; simp at hmem
  · intro hq
    rcases h14 hq with hm | h2 | h2
    · rw [hs] at hm; simp at hm
    · rw [hd] at h2; exact DState.noConfusion h2
    · rw [hd] at h2; exact DState.noConfusion h2
  · intro hq; exact DState.noConfusion hq

theorem inv_getSentinel (H : Handler) (i0 : List Req) (s : Sys) (hin : Inv H i0 s)
    (hd : s.d = .get) (hs : s.slot = [none]) :
    Inv H i0 { s with d := .joinR, slot := [] } := by
  obtain ⟨h1, h2, h3, h4, h5, h6, h7, h8, h9, h10, h11, h12, h13, h14, h15⟩ := hin
  have h3a : s.unfinished = 1 := by simpa [dHold, dSent, hd, hs] using h3
  refine ⟨h1, ?_, ?_, h4, ?_, h6, h7, ?_, ?_, ?_, h11, h12, ?_, ?_, ?_⟩
  · simp
  · simp [dHold, dSent]
    omega
  · intro req2 hq
    have := h5 req2 hq
    omega
  · have hc : slotCmds s = [] := by simp [slotCmds, hs]
    rw [hc] at h8
    simpa [slotCmds] using h8
  · have hp : dpend s = [] := by simp [dpend, hd]
    rw [hp] at h9
    simpa [dpend] using h9
  · intro req2 sigs o hq; exact DState.noConfusion hq
  · intro hmem; simp at hmem
  · intro _; exact Or.inr (Or.inl rfl)
  · intro hq; exact DState.noConfusion hq

theorem inv_sigEmit (H : Handler) (i0 : List Req) (s : Sys) (req : Req) (st : String)
    (b : Option Value) (rest : List (String × Option Value)) (o : Outcome) (hin : Inv H i0 s)
    (hd : s.d = .run req ((st, b) :: rest) o) :
    Inv H i0 { s with d := .run req rest o,
                      out := s.out ++ [(.progress, signalFrame st (b.getD (.obj [])))] } := by
  obtain ⟨h1, h2, h3, h4, h5, h6, h7, h8, h9, h10, h11, h12, h13, h14, h15⟩ := hin
  have h3a : s.unfinished = s.slot.length + 1 := by
    simpa [dHold, dSent, hd] using h3
  refine ⟨h1, h2, ?_, h4, h5, h6, h7, h8, ?_, ?_, ?_, h12, h13, ?_, ?_⟩
  · simp [dHold, dSent]
    omega
  · have hp : dpend s = [req] := by simp [dpend, hd]
    rw [hp] at h9
    simpa [dpend] using h9
  · intro req2 sigs2 o2 hq
    injection hq with e1 e2 e3
    subst e1; subst e2; subst e3
    obtain ⟨ho, pre, hpre⟩ := h10 req ((st, b) :: rest) o hd
    exact ⟨ho, pre ++ [(st, b)], by simp [hpre]⟩
  · rw [respTrace_append]
    simp [isResp, h11]
  · intro hq
    have hq2 : s.r = .rdone := hq
    rcases h14 hq2 with hm | h2x | h2x
    · exact Or.inl hm
    · rw [hd] at h2x; exact DState.noConfusion h2x
    · rw [hd] at h2x; exact DState.noConfusion h2x
  · intro hq; exact DState.noConfusion hq

theorem inv_respond (H : Handler) (i0 : List Req) (s : Sys) (req : Req) (o : Outcome)
    (hin : Inv H i0 s) (hd : s.d = .run req [] o) :
    Inv H i0 { s with d := .ack, out := s.out ++ [(.cmdResp, frameFor o)],
                      fin := s.fin ++ [req] } := by
  obtain ⟨h1, h2, h3, h4, h5, h6, h7, h8, h9, h10, h11, h12, h13, h14, h15⟩ := hin
  have h3a : s.unfinished = s.slot.length + 1 := by
    simpa [dHold, dSent, hd] using h3
  obtain ⟨ho, -⟩ := h10 req [] o hd
  refine ⟨h1, h2, ?_, h4, h5, h6, h7, h8, ?_, ?_, ?_, h12, h13, ?_, ?_⟩
  · simp [dHold, dSent]
    omega
  · have hp : dpend s = [req] := by simp [dpend, hd]
    rw [hp] at h9
    simpa [dpend] using h9
  · intro req2 sigs2 o2 hq; exact DState.noConfusion hq
  · rw [respTrace_append]
    simp [isResp, h11, respFrameOf, ho]
  · intro hq
    have hq2 : s.r = .rdone := hq
    rcases h14 hq2 with hm | h2x | h2x
    · exact Or.inl hm
    · rw [hd] at h2x; exact DState.noConfusion h2x
    · rw [hd] at h2x; exact DState.noConfusion h2x
  · intro hq; exact DState.noConfusion hq

theorem inv_recv (H : Handler) (i0 : List Req) (s : Sys) (req : Req) (rest : List Req)
    (hin : Inv H i0 s) (hr : s.r = .idle) (hi : s.inbound = req :: rest) :
    Inv H i0 (recvNext s req rest) := by
  obtain ⟨h1, h2, h3, h4, h5, h6, h7, h8, h9, h10, h11, h12, h13, h14, h15⟩ := hin
  have hseen : i0 = (s.seen ++ [req]) ++ rest := by rw [h1, hi]; simp
  have hrp : rpend s = [] := by simp [rpend, hr]
  rw [hrp] at h7
  simp only [List.append_nil] at h7
  cases hcls : classify req with
  | falsy =>
    simp only [recvNext, hcls]
    refine ⟨hseen, h2, h3, ?_, ?_, ?_, ?_, h8, h9, h10, h11, ?_, ?_, ?_, ?_⟩
    · intro req2 hq; exact RState.noConfusion hq
    · intro req2 hq; exact RState.noConfusion hq
    · intro req2 hq; rcases hq with hq | hq <;> exact RState.noConfusion hq
    · rw [cmdsOf_append, isCmdB_eq_false req (by simp [hcls])]
      simpa [rpend] using h7
    · intro hq; rcases hq with hq | hq <;> exact RState.noConfusion hq
    · intro hmem
      have := h13 hmem
      rw [hr] at this
      exact RState.noConfusion this
    · intro hq; exact RState.noConfusion hq
    · intro hq
      have := h15 hq
      rw [hr] at this
      exact RState.noConfusion this
  | missingKind =>
    simp only [recvNext, hcls]
    refine ⟨hseen, h2, h3, ?_, ?_, ?_, ?_, h8, h9, h10, ?_, ?_, ?_, ?_, ?_⟩
    · intro req2 hq
      have hq2 : s.r = .putCmd req2 := hq
      rw [hr] at hq2
      exact RState.noConfusion hq2
    · intro req2 hq
      have hq2 : s.r = .putCmd req2 := hq
      rw [hr] at hq2
      exact RState.noConfusion hq2
    · intro req2 hq
      have hq2 : s.r = .waitJoin req2 ∨ s.r = .putCmd req2 := hq
      rcases hq2 with hq2 | hq2 <;> (rw [hr] at hq2; exact RState.noConfusion hq2)
    · rw [cmdsOf_append, isCmdB_eq_false req (by simp [hcls])]
      simpa [rpend, hr] using h7
    · rw [respTrace_append]
      simp [isResp, h11]
    · intro hq
      have hq2 : s.r = .eof2 ∨ s.r = .rdone := hq
      have := h12 hq2
      exact this
    · intro hmem
      have := h13 hmem
      rw [hr] at this
      exact RState.noConfusion this
    · intro hq
      have hq2 : s.r = .rdone := hq
      rw [hr] at hq2
      exact RState.noConfusion hq2
    · intro hq
      have := h15 hq
      rw [hr] at this
      exact RState.noConfusion this
  | missingStatus =>
    simp only [recvNext, hcls]
    refine ⟨hseen, h2, h3, ?_, ?_, ?_, ?_, h8, h9, h10, ?_, ?_, ?_, ?_, ?_⟩
    · intro req2 hq
      have hq2 : s.r = .putCmd req2 := hq
      rw [hr] at hq2
      exact RState.noConfusion hq2
    · intro req2 hq
      have hq2 : s.r = .putCmd req2 := hq
      rw [hr] at hq2
      exact RState.noConfusion hq2
    · intro req2 hq
      have hq2 : s.r = .waitJoin req2 ∨ s.r = .putCmd req2 := hq
      rcases hq2 with hq2 | hq2 <;> (rw [hr] at hq2; exact RState.noConfusion hq2)
    · rw [cmdsOf_append, isCmdB_eq_false req (by simp [hcls])]
      simpa [rpend, hr] using h7
    · rw [respTrace_append]
      simp [isResp, h11]
    · intro hq
      have hq2 : s.r = .eof2 ∨ s.r = .rdone := hq
      exact h12 hq2
    · intro hmem
      have := h13 hmem
      rw [hr] at this
      exact RState.noConfusion this
    · intro hq
      have hq2 : s.r = .rdone := hq
      rw [hr] at hq2
      exact RState.noConfusion hq2
    · intro hq
      have := h15 hq
      rw [hr] at this
      exact RState.noConfusion this
  | cancel =>
    simp only [recvNext, hcls]
    refine ⟨hseen, h2, h3, ?_, ?_, ?_, ?_, h8, h9, h10, h11, ?_, ?_, ?_, ?_⟩
    · intro req2 hq
      have hq2 : s.r = .putCmd req2 := hq
      rw [hr] at hq2
      exact RState.noConfusion hq2
    · intro req2 hq
      have hq2 : s.r = .putCmd req2 := hq
      rw [hr] at hq2
      exact RState.noConfusion hq2
    · intro req2 hq
      have hq2 : s.r = .waitJoin req2 ∨ s.r = .putCmd req2 := hq
      rcases hq2 with hq2 | hq2 <;> (rw [hr] at hq2; exact RState.noConfusion hq2)
    · rw [cmdsOf_append, isCmdB_eq_false req (by simp [hcls])]
      simpa [rpend, hr] using h7
    · intro _; rfl
    · intro hmem
      have := h13 hmem
      rw [hr] at this
      exact RState.noConfusion this
    · intro hq
      have hq2 : s.r = .rdone := hq
      rw [hr] at hq2
      exact RState.noConfusion hq2
    · intro hq
      have := h15 hq
      rw [hr] at this
      exact RState.noConfusion this
  | otherSignal =>
    simp only [recvNext, hcls]
    refine ⟨hseen, h2, h3, ?_, ?_, ?_, ?_, h8, h9, h10, h11, ?_, ?_, ?_, ?_⟩
    · intro req2 hq
      have hq2 : s.r = .putCmd req2 := hq
      rw [hr] at hq2
      exact RState.noConfusion hq2
    · intro req2 hq
      have hq2 : s.r = .putCmd req2 := hq
      rw [hr] at hq2
      exact RState.noConfusion hq2
    · intro req2 hq
      have hq2 : s.r = .waitJoin req2 ∨ s.r = .putCmd req2 := hq
      rcases hq2 with hq2 | hq2 <;> (rw [hr] at hq2; exact RState.noConfusion hq2)
    · rw [cmdsOf_append, isCmdB_eq_false req (by simp [hcls])]
      simpa [rpend, hr] using h7
    · intro hq
      have hq2 : s.r = .eof2 ∨ s.r = .rdone := hq
      exact h12 hq2
    · intro hmem
      have := h13 hmem
      rw [hr] at this
      exact RState.noConfusion this
    · intro hq
      have hq2 : s.r = .rdone := hq
      rw [hr] at hq2
      exact RState.noConfusion hq2
    · intro hq
      have := h15 hq
      rw [hr] at this
      exact RState.noConfusion this
  | command =>
    simp only [recvNext, hcls]
    refine ⟨hseen, h2, h3, ?_, ?_, ?_, ?_, h8, h9, h10, h11, ?_, ?_, ?_, ?_⟩
    · intro req2 hq; exact RState.noConfusion hq
    · intro req2 hq; exact RState.noConfusion hq
    · intro req2 hq
      rcases hq with hq | hq
      · injection hq with he
        exact he ▸ hcls
      · exact RState.noConfusion hq
    · rw [cmdsOf_append, isCmdB_eq_true req hcls]
      simp [rpend, h7]
    · intro hq; rcases hq with hq | hq <;> exact RState.noConfusion hq
    · intro hmem
      have := h13 hmem
      rw [hr] at this
      exact RState.noConfusion this
    · intro hq; exact RState.noConfusion hq
    · intro hq
      have := h15 hq
      rw [hr] at this
      exact RState.noConfusion this
  | badKind =>
    simp only [recvNext, hcls]
    refine ⟨hseen, h2, h3, ?_, ?_, ?_, ?_, h8, h9, h10, ?_, ?_, ?_, ?_, ?_⟩
    · intro req2 hq
      have hq2 : s.r = .putCmd req2 := hq
      rw [hr] at hq2
      exact RState.noConfusion hq2
    · intro req2 hq
      have hq2 : s.r = .putCmd req2 := hq
      rw [hr] at hq2
      exact RState.noConfusion hq2
    · intro req2 hq
      have hq2 : s.r = .waitJoin req2 ∨ s.r = .putCmd req2 := hq
      rcases hq2 with hq2 | hq2 <;> (rw [hr] at hq2; exact RState.noConfusion hq2)
    · rw [cmdsOf_append, isCmdB_eq_false req (by simp [hcls])]
      simpa [rpend, hr] using h7
    · rw [respTrace_append]
      simp [isResp, h11]
    · intro hq
      have hq2 : s.r = .eof2 ∨ s.r = .rdone := hq
      exact h12 hq2
    · intro hmem
      have := h13 hmem
      rw [hr] at this
      exact RState.noConfusion this
    · intro hq
      have hq2 : s.r = .rdone := hq
      rw [hr] at hq2
      exact RState.noConfusion hq2
    · intro hq
      have := h15 hq
      rw [hr] at this
      exact RState.noConfusion this

theorem inv_step (H : Handler) (i0 : List Req) (s s₂ : Sys) (hin : Inv H i0 s)
    (hst : Step H s s₂) : Inv H i0 s₂ := by
  cases hst with
  | recv req rest hr hi => exact inv_recv H i0 s req rest hin hr hi
  | eofBreak hr hi => exact inv_eofBreak H i0 s hin hr hi
  | eofSet hr => exact inv_eofSet H i0 s hin hr
  | eofPut hr hs => exact inv_eofPut H i0 s hin hr hs
  | joinOk req hr hu => exact inv_joinOk H i0 s req hin hr hu
  | put req hr hs => exact inv_put H i0 s req hin hr hs
  | getCmd req hd hs => exact inv_getCmd H i0 s req hin hd hs
  | getSentinel hd hs => exact inv_getSentinel H i0 s hin hd hs
  | sigEmit req st b rest o hd => exact inv_sigEmit H i0 s req st b rest o hin hd
  | respond req o hd => exact inv_respond H i0 s req o hin hd
  | ack hd => exact inv_ack H i0 s hin hd
  | joinReader hd hr => exact inv_joinReader H i0 s hin hd hr

theorem reachable_inv (H : Handler) (i0 : List Req) (s : Sys) (h : Reachable H i0 s) :
    Inv H i0 s := by
  induction h with
  | refl => exact inv_init H i0
  | tail _ hstep ih => exact inv_step H i0 _ _ ih hstep

/-- A quiescent shutdown state: the reader has left its loop (stream
closed), the dispatcher holds no command, and the handoff queue contains
at most the sentinel.  From such a state no further outbound frame can
ever be emitted. -/
def Quiet (s : Sys) : Prop :=
  (s.r = .eof1 ∨ s.r = .eof2 ∨ s.r = .rdone) ∧
  (s.d = .get ∨ s.d = .joinR ∨ s.d = .done) ∧
  (∀ x ∈ s.slot, x = none)

theorem quiet_step (H : Handler) (s s₂ : Sys) (hst : Step H s s₂) (hq : Quiet s) :
    Quiet s₂ ∧ s₂.out = s.out := by
  obtain ⟨hqr, hqd, hqs⟩ := hq
  cases hst with
  | recv req rest hr hi =>
    rw [hr] at hqr
    rcases hqr with h | h | h <;> exact RState.noConfusion h
  | eofBreak hr hi =>
    rw [hr] at hqr
    rcases hqr with h | h | h <;> exact RState.noConfusion h
  | eofSet hr =>
    exact ⟨⟨Or.inr (Or.inl rfl), hqd, hqs⟩, rfl⟩
  | eofPut hr hs =>
    refine ⟨⟨Or.inr (Or.inr rfl), hqd, ?_⟩, rfl⟩
    intro x hx
    simpa using hx
  | joinOk req hr hu =>
    rw [hr] at hqr
    rcases hqr with h | h | h <;> exact RState.noConfusion h
  | put req hr hs =>
    rw [hr] at hqr
    rcases hqr with h | h | h <;> exact RState.noConfusion h
  | getCmd req hd hs =>
    have := hqs (some req) (by rw [hs]; simp)
    exact Option.noConfusion this
  | getSentinel hd hs =>
    refine ⟨⟨hqr, Or.inr (Or.inl rfl), ?_⟩, rfl⟩
    intro x hx
    simp at hx
  | sigEmit req st b rest o hd =>
    rw [hd] at hqd
    rcases hqd with h | h | h <;> exact DState.noConfusion h
  | respond req o hd =>
    rw [hd] at hqd
    rcases hqd with h | h | h <;> exact DState.noConfusion h
  | ack hd =>
    rw [hd] at hqd
    rcases hqd with h | h | h <;> exact DState.noConfusion h
  | joinReader hd hr =>
    exact ⟨⟨hqr, Or.inr (Or.inr rfl), hqs⟩, rfl⟩

theorem quiet_steps (H : Handler) (s s₂ : Sys)
    (hsteps : Relation.ReflTransGen (Step H) s s₂) (hq : Quiet s) : s₂.out = s.out := by
  induction hsteps with
  | refl => rfl
  | tail hs2 hstep ih =>
    rename_i b c
    have hqb : Quiet b := by
      clear ih hstep
      induction hs2 with
      | refl => exact hq
      | tail _ hstep2 ih2 => exact (quiet_step H _ _ hstep2 ih2).1
    rw [(quiet_step H _ _ hstep hqb).2, ih]

/-- Only the reader sets the cancellation event: a step that turns the
event on is either the processing of an inbound cancel signal or the
`event.set()` on stream closure. -/
theorem event_set_only (H : Handler) (s s₂ : Sys) (hst : Step H s s₂) (he : s₂.event = true) :
    s.event = true ∨
    (∃ req rest, s.r = .idle ∧ s.inbound = req :: rest ∧ classify req = .cancel) ∨
    s.r = .eof1 := by
  cases hst with
  | recv req rest hr hi =>
    cases hcls : classify req <;> simp only [recvNext, hcls] at he
    case cancel => exact Or.inr (Or.inl ⟨req, rest, hr, hi, hcls⟩)
    all_goals exact Or.inl he
  | eofSet hr => exact Or.inr (Or.inr hr)
  | joinOk req hr hu => exact absurd (show (false : Bool) = true from he) (by simp)
  | eofBreak hr hi => exact Or.inl he
  | eofPut hr hs => exact Or.inl he
  | put req hr hs => exact Or.inl he
  | getCmd req hd hs => exact Or.inl he
  | getSentinel hd hs => exact Or.inl he
  | sigEmit req st b rest o hd => exact Or.inl he
  | respond req o hd => exact Or.inl he
  | ack hd => exact Or.inl he
  | joinReader hd hr => exact Or.inl he

/-- While a handler invocation is in progress, a set cancellation event
stays set: the reader's `event.clear()` is guarded by `cmd_queue.join()`,
which cannot return while the dequeued command is unacknowledged. -/
theorem event_persists (H : Handler) (i0 : List Req) (s s₂ : Sys) (req : Req)
    (sigs : List (String × Option Value)) (o : Outcome) (hin : Inv H i0 s)
    (hd : s.d = .run req sigs o) (he : s.event = true) (hst : Step H s s₂) :
    s₂.event = true := by
  cases hst with
  | recv req2 rest hr hi =>
    cases hcls : classify req2 <;> simp only [recvNext, hcls] <;> first | rfl | exact he
  | eofSet hr => rfl
  | joinOk req2 hr hu =>
    exfalso
    have h3 := hin.unfEq
    simp [dHold, dSent, hd] at h3
    omega
  | eofBreak hr hi => exact he
  | eofPut hr hs => exact he
  | put req2 hr hs => exact he
  | getCmd req2 hd2 hs => exact he
  | getSentinel hd2 hs => exact he
  | sigEmit req2 st b rest o2 hd2 => exact he
  | respond req2 o2 hd2 => exact he
  | ack hd2 => exact he
  | joinReader hd2 hr => exact he

/-- A trivial concrete handler (no progress signals, returns an empty
object), used to instantiate theorems on concrete runs. -/
def H0 : Handler := ⟨fun _ _ _ => [], fun _ _ _ => .ok (.obj [])⟩

/-- A command frame missing its required `action` field. -/
def badCmd : Req := [("kind", Value.str "command")]

/-- A well-formed command frame. -/
def demoCmd : Req := [("kind", Value.str "command"), ("action", Value.str "list")]

/-- An inbound cancel signal frame. -/
def cancelSig : Req := [("kind", Value.str "signal"), ("status", Value.str "cancel")]

/-- The empty object frame, decoded from an inbound line holding an
empty JSON object; it is falsy in Python. -/
def emptyReq : Req := []

/-- C1: at most one command is ever in flight — the handoff queue
(capacity 1) never holds more than one entry; the reader reaches the
`put` only when `unfinished_tasks = 0`, i.e. after the dispatcher has
acknowledged that every previously enqueued command was fully drained
(at that point the queue is also empty); and the drain acknowledgment is
always available after a dequeued command's response, for every outcome
`o` (success, structured failure, or any other exception) alike. -/
theorem claim1_at_most_one_in_flight (H : Handler) (i0 : List Req) (s : Sys)
    (h : Reachable H i0 s) :
    s.slot.length ≤ 1 ∧
    (∀ req, s.r = .putCmd req → s.unfinished = 0 ∧ s.slot = []) ∧
    (∀ req o, s.d = .run req [] o → Step H s (respondSucc s req o)) ∧
    (s.d = .ack → Step H s (ackSucc s)) := by
  have hin := reachable_inv H i0 s h
  refine ⟨hin.slotLen, ?_, ?_, ?_⟩
  · intro req hq
    have hu := hin.putUnf req hq
    have h3 := hin.unfEq
    refine ⟨hu, ?_⟩
    rw [hu] at h3
    have hl : s.slot.length = 0 := by omega
    exact List.length_eq_zero.mp hl
  · intro req o hq
    exact Step.respond s req o hq
  · intro hq
    exact Step.ack s hq

theorem claim1_witness :
    (init [demoCmd]).slot.length ≤ 1 ∧
    (∀ req, (init [demoCmd]).r = .putCmd req →
      (init [demoCmd]).unfinished = 0 ∧ (init [demoCmd]).slot = []) ∧
    (∀ req o, (init [demoCmd]).d = .run req [] o →
      Step H0 (init [demoCmd]) (respondSucc (init [demoCmd]) req o)) ∧
    ((init [demoCmd]).d = .ack → Step H0 (init [demoCmd]) (ackSucc (init [demoCmd]))) :=
  claim1_at_most_one_in_flight H0 [demoCmd] (init [demoCmd]) Relation.ReflTransGen.refl

/-- C2: commands are dispatched strictly in receipt order and get exactly
one response frame each, in that order.  The pipeline equations say: the
command frames of the consumed stream prefix equal the enqueued commands
(plus possibly one in transit inside the reader); the enqueued commands
equal the dispatched ones followed by those still queued; the dispatched
ones equal the responded ones followed by the one currently running; and
the response subtrace of the outbound stream is exactly the responded
commands' response frames in order.  When the dispatcher is back at its
blocking dequeue — the only place a new command can be dispatched from —
every previously dispatched command's response frame has been sent, so
handler invocations never overlap a pending response. -/
theorem claim2_ordered_single_response (H : Handler) (i0 : List Req) (s : Sys)
    (h : Reachable H i0 s) :
    i0 = s.seen ++ s.inbound ∧
    s.enq ++ rpend s = cmdsOf s.seen ∧
    s.enq = s.disp ++ slotCmds s ∧
    s.disp = s.fin ++ dpend s ∧
    respTrace s.out = s.fin.map (respFrameOf H) ∧
    (s.d = .get → s.disp = s.fin) := by
  have hin := reachable_inv H i0 s h
  refine ⟨hin.seenLink, hin.enqEq, hin.dispEq, hin.finEq, hin.respEq, ?_⟩
  intro hd
  rw [hin.finEq]
  simp [dpend, hd]

theorem claim2_witness :
    [demoCmd] = (execN H0 (init [demoCmd]) 20).seen ++ (execN H0 (init [demoCmd]) 20).inbound ∧
    (execN H0 (init [demoCmd]) 20).enq ++ rpend (execN H0 (init [demoCmd]) 20)
      = cmdsOf (execN H0 (init [demoCmd]) 20).seen ∧
    (execN H0 (init [demoCmd]) 20).enq
      = (execN H0 (init [demoCmd]) 20).disp ++ slotCmds (execN H0 (init [demoCmd]) 20) ∧
    (execN H0 (init [demoCmd]) 20).disp
      = (execN H0 (init [demoCmd]) 20).fin ++ dpend (execN H0 (init [demoCmd]) 20) ∧
    respTrace (execN H0 (init [demoCmd]) 20).out
      = (execN H0 (init [demoCmd]) 20).fin.map (respFrameOf H0) ∧
    ((execN H0 (init [demoCmd]) 20).d = .get
      → (execN H0 (init [demoCmd]) 20).disp = (execN H0 (init [demoCmd]) 20).fin) :=
  claim2_ordered_single_response H0 [demoCmd] (execN H0 (init [demoCmd]) 20)
    (execN_reachable H0 [demoCmd] 20)

/-- C3 counterexample: the inbound stream consisting of the single frame
`{"kind": "command"}` — a command frame missing its required `action`
field — runs to completion emitting exactly one outbound frame, the
dispatcher's error frame with status `"exception"` (message
`repr(KeyError)` of the missing key), and no frame with status
`"invalid-command"` is ever emitted.  The reader enqueues the command
without checking `action`; the `KeyError` is raised in the dispatcher's
`try` block and caught by its generic `except Exception` arm. -/
theorem claim3_counterexample :
    Reachable H0 [badCmd] (execN H0 (init [badCmd]) 20) ∧
    classify badCmd = .command ∧
    lookupReq badCmd "action" = none ∧
    (execN H0 (init [badCmd]) 20).d = .done ∧
    (execN H0 (init [badCmd]) 20).out
      = [(.cmdResp, errFrame "exception" (keyErrRepr "action") (.obj []))] ∧
    "exception" ≠ "invalid-command" :=
  ⟨execN_reachable H0 [badCmd] 20, rfl, rfl, rfl, rfl, by decide⟩

/-- C3 (amended): malformed frames detected in the reader — a frame with
no `kind`, a `signal` frame with no `status`, or an unsupported `kind` —
each produce exactly one `error` frame with status `"invalid-command"`
(message: the `KeyError` text naming the missing field, or
`"Unsupported request type"`), and the reader stays in its loop, so the
session keeps accepting frames.  A `command` frame missing `action`,
however, is enqueued unchecked; its dispatch produces one `error` frame
with status `"exception"` and the `repr(KeyError)` message instead. -/
theorem claim3_amended (H : Handler) (s : Sys) (req : Req) (rest : List Req)
    (hr : s.r = .idle) (hi : s.inbound = req :: rest) :
    (classify req = .missingKind →
      recvNext s req rest = errEmit s req rest (keyErrStr "kind") ∧
      (recvNext s req rest).r = .idle ∧
      Step H s (recvNext s req rest)) ∧
    (classify req = .missingStatus →
      recvNext s req rest = errEmit s req rest (keyErrStr "status") ∧
      (recvNext s req rest).r = .idle ∧
      Step H s (recvNext s req rest)) ∧
    (classify req = .badKind →
      recvNext s req rest = errEmit s req rest "Unsupported request type" ∧
      (recvNext s req rest).r = .idle ∧
      Step H s (recvNext s req rest)) ∧
    (lookupReq req "action" = none →
      dispatchRun H req = ([], .exn (keyErrRepr "action")) ∧
      respFrameOf H req = errFrame "exception" (keyErrRepr "action") (.obj [])) := by
  refine ⟨?_, ?_, ?_, ?_⟩
  · intro hcls
    exact ⟨by simp [recvNext, hcls, errEmit], by simp [recvNext, hcls, hr],
      Step.recv s req rest hr hi⟩
  · intro hcls
    exact ⟨by simp [recvNext, hcls, errEmit], by simp [recvNext, hcls, hr],
      Step.recv s req rest hr hi⟩
  · intro hcls
    exact ⟨by simp [recvNext, hcls, errEmit], by simp [recvNext, hcls, hr],
      Step.recv s req rest hr hi⟩
  · intro ha
    exact ⟨by simp [dispatchRun, ha], by simp [respFrameOf, dispatchRun, ha, frameFor]⟩

theorem claim3_witness :
    (classify badCmd = .missingKind →
      recvNext (init [badCmd]) badCmd [] = errEmit (init [badCmd]) badCmd [] (keyErrStr "kind") ∧
      (recvNext (init [badCmd]) badCmd []).r = .idle ∧
      Step H0 (init [badCmd]) (recvNext (init [badCmd]) badCmd [])) ∧
    (classify badCmd = .missingStatus →
      recvNext (init [badCmd]) badCmd [] = errEmit (init [badCmd]) badCmd [] (keyErrStr "status") ∧
      (recvNext (init [badCmd]) badCmd []).r = .idle ∧
      Step H0 (init [badCmd]) (recvNext (init [badCmd]) badCmd [])) ∧
    (classify badCmd = .badKind →
      recvNext (init [badCmd]) badCmd []
        = errEmit (init [badCmd]) badCmd [] "Unsupported request type" ∧
      (recvNext (init [badCmd]) badCmd []).r = .idle ∧
      Step H0 (init [badCmd]) (recvNext (init [badCmd]) badCmd [])) ∧
    (lookupReq badCmd "action" = none →
      dispatchRun H0 badCmd = ([], .exn (keyErrRepr "action")) ∧
      respFrameOf H0 badCmd = errFrame "exception" (keyErrRepr "action") (.obj [])) :=
  claim3_amended H0 (init [badCmd]) badCmd [] rfl rfl

/-- C4: shutdown sequencing.  Once the reader has executed its
end-of-stream `event.set()` the cancellation token is set; once the
reader thread has returned, the sentinel is in the queue or already
consumed by the dispatcher; the dispatcher exits its loop on the
sentinel (the `getSentinel` step); `process` returns (`d = done`) only
with the reader already terminated (join); and from any quiescent
shutdown state — reader out of its loop, dispatcher idle, no command
queued — no outbound frame is ever emitted again. -/
theorem claim4_shutdown_sequence (H : Handler) (i0 : List Req) (s : Sys)
    (h : Reachable H i0 s) :
    ((s.r = .eof2 ∨ s.r = .rdone) → s.event = true) ∧
    (s.r = .rdone → none ∈ s.slot ∨ s.d = .joinR ∨ s.d = .done) ∧
    (s.d = .done → s.r = .rdone) ∧
    (s.d = .get → s.slot = [none] → Step H s { s with d := .joinR, slot := [] }) ∧
    (Quiet s → ∀ s₂, Relation.ReflTransGen (Step H) s s₂ → s₂.out = s.out) := by
  have hin := reachable_inv H i0 s h
  exact ⟨hin.eofEvent, hin.rdoneSent, hin.doneR,
    fun hd hs => Step.getSentinel s hd hs,
    fun hq s₂ hsteps => quiet_steps H s s₂ hsteps hq⟩

theorem claim4_witness :
    (((execN H0 (init [([] : Req)]) 20).r = .eof2 ∨ (execN H0 (init [([] : Req)]) 20).r = .rdone)
      → (execN H0 (init [([] : Req)]) 20).event = true) ∧
    ((execN H0 (init [([] : Req)]) 20).r = .rdone →
      none ∈ (execN H0 (init [([] : Req)]) 20).slot ∨
      (execN H0 (init [([] : Req)]) 20).d = .joinR ∨
      (execN H0 (init [([] : Req)]) 20).d = .done) ∧
    ((execN H0 (init [([] : Req)]) 20).d = .done → (execN H0 (init [([] : Req)]) 20).r = .rdone) ∧
    ((execN H0 (init [([] : Req)]) 20).d = .get → (execN H0 (init [([] : Req)]) 20).slot = [none] →
      Step H0 (execN H0 (init [([] : Req)]) 20)
        { execN H0 (init [([] : Req)]) 20 with d := .joinR, slot := [] }) ∧
    (Quiet (execN H0 (init [([] : Req)]) 20) →
      ∀ s₂, Relation.ReflTransGen (Step H0) (execN H0 (init [([] : Req)]) 20) s₂ →
        s₂.out = (execN H0 (init [([] : Req)]) 20).out) :=
  claim4_shutdown_sequence H0 [([] : Req)] (execN H0 (init [([] : Req)]) 20)
    (execN_reachable H0 [([] : Req)] 20)

/-- C5: every command is enqueued with the cancellation token freshly
cleared: in any reachable state where the reader stands at
`cmd_queue.put(request)` (after `join` and `event.clear()`), the token
is unset.  Moreover the token is only ever turned on by the reader's
processing of an inbound cancel signal or by its end-of-stream
`event.set()`, so a token value observed true by a later command's
handler can only stem from a cancel processed after that command was
enqueued, never from an earlier command's cancellation. -/
theorem claim5_fresh_token (H : Handler) (i0 : List Req) (s : Sys) (h : Reachable H i0 s) :
    (∀ req, s.r = .putCmd req → s.event = false) ∧
    (∀ s₂, Step H s s₂ → s₂.event = true →
      s.event = true ∨
      (∃ req rest, s.r = .idle ∧ s.inbound = req :: rest ∧ classify req = .cancel) ∨
      s.r = .eof1) := by
  have hin := reachable_inv H i0 s h
  exact ⟨hin.putEvent, fun s₂ hst he => event_set_only H s s₂ hst he⟩

theorem claim5_witness :
    (∀ req, (execN H0 (init [cancelSig, demoCmd]) 1).r = .putCmd req →
      (execN H0 (init [cancelSig, demoCmd]) 1).event = false) ∧
    (∀ s₂, Step H0 (execN H0 (init [cancelSig, demoCmd]) 1) s₂ → s₂.event = true →
      (execN H0 (init [cancelSig, demoCmd]) 1).event = true ∨
      (∃ req rest, (execN H0 (init [cancelSig, demoCmd]) 1).r = .idle ∧
        (execN H0 (init [cancelSig, demoCmd]) 1).inbound = req :: rest ∧
        classify req = .cancel) ∨
      (execN H0 (init [cancelSig, demoCmd]) 1).r = .eof1) :=
  claim5_fresh_token H0 [cancelSig, demoCmd] (execN H0 (init [cancelSig, demoCmd]) 1)
    (execN_reachable H0 [cancelSig, demoCmd] 1)

/-- C6: the reader handles an inbound cancel signal by setting the
shared event in the very step that consumes the frame — the handoff
queue and the outbound trace are untouched; a signal with any other
status changes nothing but the consumed stream (it is only logged); and
while a handler invocation is in progress a set event stays set for
every further step, so the running command observes the cancellation at
any later check. -/
theorem claim6_cancel_semantics (H : Handler) (i0 : List Req) (s : Sys)
    (h : Reachable H i0 s) :
    (∀ req rest, s.r = .idle → s.inbound = req :: rest → classify req = .cancel →
      recvNext s req rest = { s with event := true, inbound := rest, seen := s.seen ++ [req] } ∧
      Step H s (recvNext s req rest)) ∧
    (∀ req rest, s.r = .idle → s.inbound = req :: rest → classify req = .otherSignal →
      recvNext s req rest = { s with inbound := rest, seen := s.seen ++ [req] } ∧
      Step H s (recvNext s req rest)) ∧
    (∀ s₂ req sigs o, s.d = .run req sigs o → s.event = true → Step H s s₂ →
      s₂.event = true) := by
  have hin := reachable_inv H i0 s h
  refine ⟨?_, ?_, ?_⟩
  · intro req rest hr hi hcls
    exact ⟨by simp [recvNext, hcls], Step.recv s req rest hr hi⟩
  · intro req rest hr hi hcls
    exact ⟨by simp [recvNext, hcls], Step.recv s req rest hr hi⟩
  · intro s₂ req sigs o hd he hst
    exact event_persists H i0 s s₂ req sigs o hin hd he hst

theorem claim6_witness :
    (∀ req rest, (init [cancelSig]).r = .idle → (init [cancelSig]).inbound = req :: rest →
      classify req = .cancel →
      recvNext (init [cancelSig]) req rest
        = { init [cancelSig] with event := true, inbound := rest, seen := (init [cancelSig]).seen ++ [req] } ∧
      Step H0 (init [cancelSig]) (recvNext (init [cancelSig]) req rest)) ∧
    (∀ req rest, (init [cancelSig]).r = .idle → (init [cancelSig]).inbound = req :: rest →
      classify req = .otherSignal →
      recvNext (init [cancelSig]) req rest
        = { init [cancelSig] with inbound := rest, seen := (init [cancelSig]).seen ++ [req] } ∧
      Step H0 (init [cancelSig]) (recvNext (init [cancelSig]) req rest)) ∧
    (∀ s₂ req sigs o, (init [cancelSig]).d = .run req sigs o →
      (init [cancelSig]).event = true → Step H0 (init [cancelSig]) s₂ →
      s₂.event = true) :=
  claim6_cancel_semantics H0 [cancelSig] (init [cancelSig]) Relation.ReflTransGen.refl

/-- C7: the response frame of a dispatched command is a function of the
handler outcome alone, and one such frame is emitted per command: a
returned value `v` yields the `success` frame with body `v`; a raised
structured failure `(status, message, body)` yields the `error` frame
carrying exactly those three fields; any other failure yields the
`error` frame with status `"exception"`, the failure's string rendering
as message, and an empty body.  In any reachable state about to respond,
the pending outcome is exactly what the dispatcher computed for the
dequeued frame, and the response step appends exactly one frame. -/
theorem claim7_outcome_frames (H : Handler) (i0 : List Req) (s : Sys) (req : Req)
    (o : Outcome) (h : Reachable H i0 s) (hd : s.d = .run req [] o) :
    o = (dispatchRun H req).2 ∧
    Step H s (respondSucc s req o) ∧
    (respondSucc s req o).out = s.out ++ [(.cmdResp, frameFor o)] ∧
    (∀ v, frameFor (.ok v) = successFrame v) ∧
    (∀ st m b, frameFor (.rpcErr st m b) = errFrame st m b) ∧
    (∀ m, frameFor (.exn m) = errFrame "exception" m (.obj [])) := by
  have hin := reachable_inv H i0 s h
  obtain ⟨ho, -⟩ := hin.runDisp req [] o hd
  exact ⟨ho, Step.respond s req o hd, rfl, fun v => rfl, fun st m b => rfl, fun m => rfl⟩

theorem claim7_witness :
    Outcome.ok (.obj []) = (dispatchRun H0 demoCmd).2 ∧
    Step H0 (execN H0 (init [demoCmd]) 6)
      (respondSucc (execN H0 (init [demoCmd]) 6) demoCmd (.ok (.obj []))) ∧
    (respondSucc (execN H0 (init [demoCmd]) 6) demoCmd (.ok (.obj []))).out
      = (execN H0 (init [demoCmd]) 6).out ++ [(.cmdResp, frameFor (.ok (.obj [])))] ∧
    (∀ v, frameFor (.ok v) = successFrame v) ∧
    (∀ st m b, frameFor (.rpcErr st m b) = errFrame st m b) ∧
    (∀ m, frameFor (.exn m) = errFrame "exception" m (.obj [])) :=
  claim7_outcome_frames H0 [demoCmd] (execN H0 (init [demoCmd]) 6) demoCmd (.ok (.obj []))
    (execN_reachable H0 [demoCmd] 6) rfl

/-- C8: dispatching a dequeued command invokes the handler with exactly
the frame's `action`, its `target` defaulting to the empty array and its
`body` defaulting to the empty object when absent (plus the shared event
and the `signal` callback, which the embedding carries in the handler's
two components), and the `signal` callback appends the outbound frame
`kind=signal, status, body` (body defaulting to the empty object)
immediately, while the handler invocation is still in progress. -/
theorem claim8_handler_arguments (H : Handler) (s : Sys) (req : Req) (a : Value)
    (hd : s.d = .get) (hs : s.slot = [some req]) (ha : lookupReq req "action" = some a) :
    Step H s (getSucc H s req) ∧
    (getSucc H s req).d = .run req
      (H.sigs a (lookupD req "target" (.arr [])) (lookupD req "body" (.obj [])))
      (H.outcome a (lookupD req "target" (.arr [])) (lookupD req "body" (.obj []))) ∧
    (∀ s₀ st b rest o, s₀.d = .run req ((st, b) :: rest) o →
      Step H s₀ (sigSucc s₀ req st b rest o) ∧
      (sigSucc s₀ req st b rest o).out
        = s₀.out ++ [(.progress, signalFrame st (b.getD (.obj [])))] ∧
      (sigSucc s₀ req st b rest o).d = .run req rest o) := by
  refine ⟨Step.getCmd s req hd hs, ?_, ?_⟩
  · simp [getSucc, dispatchRun, ha]
  · intro s₀ st b rest o hd₀
    exact ⟨Step.sigEmit s₀ req st b rest o hd₀, rfl, rfl⟩

theorem claim8_witness :
    Step H0 (execN H0 (init [demoCmd]) 3) (getSucc H0 (execN H0 (init [demoCmd]) 3) demoCmd) ∧
    (getSucc H0 (execN H0 (init [demoCmd]) 3) demoCmd).d = .run demoCmd
      (H0.sigs (Value.str "list") (lookupD demoCmd "target" (.arr [])) (lookupD demoCmd "body" (.obj [])))
      (H0.outcome (Value.str "list") (lookupD demoCmd "target" (.arr [])) (lookupD demoCmd "body" (.obj []))) ∧
    (∀ s₀ st b rest o, s₀.d = .run demoCmd ((st, b) :: rest) o →
      Step H0 s₀ (sigSucc s₀ demoCmd st b rest o) ∧
      (sigSucc s₀ demoCmd st b rest o).out
        = s₀.out ++ [(.progress, signalFrame st (b.getD (.obj [])))] ∧
      (sigSucc s₀ demoCmd st b rest o).d = .run demoCmd rest o) :=
  claim8_handler_arguments H0 (execN H0 (init [demoCmd]) 3) demoCmd (Value.str "list")
    rfl rfl rfl

/-- C9: a falsy value returned by `recv` — in particular the empty
object decoded from an inbound line consisting of an empty JSON object,
not just the end-of-stream marker — makes the reader leave its loop
without emitting anything: the step consuming it emits no frame (so in
particular no `invalid-command` error) and moves the reader to its
shutdown path, which sets the cancellation event and then enqueues the
`None` sentinel. -/
theorem claim9_falsy_closure (H : Handler) (s : Sys) (rest : List Req)
    (hr : s.r = .idle) (hi : s.inbound = ([] : Req) :: rest) :
    classify ([] : Req) = .falsy ∧
    recvNext s ([] : Req) rest
      = { s with r := .eof1, inbound := rest, seen := s.seen ++ [([] : Req)] } ∧
    (recvNext s ([] : Req) rest).out = s.out ∧
    Step H s (recvNext s ([] : Req) rest) ∧
    (∀ s₁, s₁.r = .eof1 → Step H s₁ { s₁ with r := .eof2, event := true }) ∧
    (∀ s₂, s₂.r = .eof2 → s₂.slot = [] →
      Step H s₂ { s₂ with r := .rdone, slot := [none], unfinished := s₂.unfinished + 1 }) := by
  refine ⟨rfl, rfl, rfl, Step.recv s ([] : Req) rest hr hi, ?_, ?_⟩
  · intro s₁ h₁
    exact Step.eofSet s₁ h₁
  · intro s₂ h₂ hs₂
    exact Step.eofPut s₂ h₂ hs₂

theorem claim9_witness :
    classify ([] : Req) = .falsy ∧
    recvNext (init [emptyReq]) ([] : Req) []
      = { init [emptyReq] with r := .eof1, inbound := ([] : List Req), seen := (init [emptyReq]).seen ++ [([] : Req)] } ∧
    (recvNext (init [emptyReq]) ([] : Req) []).out = (init [emptyReq]).out ∧
    Step H0 (init [emptyReq]) (recvNext (init [emptyReq]) ([] : Req) []) ∧
    (∀ s₁, s₁.r = .eof1 → Step H0 s₁ { s₁ with r := .eof2, event := true }) ∧
    (∀ s₂, s₂.r = .eof2 → s₂.slot = [] →
      Step H0 s₂ { s₂ with r := .rdone, slot := [none], unfinished := s₂.unfinished + 1 }) :=
  claim9_falsy_closure H0 (init [emptyReq]) [] rfl rfl

/-- C10: the dispatcher reads only `action`, `target` (defaulted) and
`body` (defaulted) from a dequeued command frame: two frames agreeing on
those three lookups produce the same handler invocation — the same
progress-signal sequence and the same outcome — and the same response
frame, whatever other fields they carry. -/
theorem claim10_field_irrelevance (H : Handler) (r₁ r₂ : Req)
    (ha : lookupReq r₁ "action" = lookupReq r₂ "action")
    (ht : lookupD r₁ "target" (.arr []) = lookupD r₂ "target" (.arr []))
    (hb : lookupD r₁ "body" (.obj []) = lookupD r₂ "body" (.obj [])) :
    dispatchRun H r₁ = dispatchRun H r₂ ∧ respFrameOf H r₁ = respFrameOf H r₂ := by
  have hdr : dispatchRun H r₁ = dispatchRun H r₂ := by
    unfold dispatchRun
    simp only [ha, ht, hb]
  refine ⟨hdr, ?_⟩
  unfold respFrameOf
  rw [hdr]

theorem claim10_witness :
    dispatchRun H0 [("kind", Value.str "command"), ("action", Value.str "x")]
      = dispatchRun H0
          [("kind", Value.str "command"), ("action", Value.str "x"), ("extra", Value.null)] ∧
    respFrameOf H0 [("kind", Value.str "command"), ("action", Value.str "x")]
      = respFrameOf H0
          [("kind", Value.str "command"), ("action", Value.str "x"), ("extra", Value.null)] :=
  claim10_field_irrelevance H0
    [("kind", Value.str "command"), ("action", Value.str "x")]
    [("kind", Value.str "command"), ("action", Value.str "x"), ("extra", Value.null)]
    rfl rfl rfl

end YkmanRpc
